import Mathlib

/-
Verification of the shell-command supervision library (package `shell`,
files shell.go and fileutils.go) against its natural-language specification.

The Go code is shallowly embedded:
  * pure string manipulation (resultOutput.Text, resultOutput.Lines,
    DirDepth) becomes pure functions over lists of characters;
  * the supervision engine (command.runWithContext, shell.go lines 164-210)
    becomes an explicit small-step trace model: the main routine and the
    background waiter goroutine are each a list of atomic actions on the
    Result state, and a concrete execution is an interleaving of the two;
  * the buffered readiness channel (capacity 3, shell.go line 276) is
    modelled by a token counter: SetReady enqueues a token, a receive
    consumes one and can only proceed when a token is present;
  * interaction with the operating system (exec.Cmd.Start, exec.Cmd.Wait,
    Process.Kill, os.Stat) is abstracted by parameters carrying the value
    the OS call returned.  Go's documented semantics are used for those
    values: Wait returns a non-nil ExitError when the process exits with a
    non-zero status, Process.Kill returns the error
    "os: process already finished" when the process was already reaped,
    and calling Kill through a nil Process pointer panics.
-/

/- ----------------------------------------------------------------- -/
/- Character-level models of the Go strings helpers used by the code -/
/- ----------------------------------------------------------------- -/

/-- The Go whitespace predicate `unicode.IsSpace`, restricted to the
ASCII and Latin-1 space characters (space, tab, newline, vertical tab,
form feed, carriage return, next line, no-break space).  All inputs in
the claims are ASCII. -/
def goSpace (c : Char) : Bool :=
  c = ' ' || c = Char.ofNat 9 || c = Char.ofNat 10 || c = Char.ofNat 11 ||
  c = Char.ofNat 12 || c = Char.ofNat 13 || c = Char.ofNat 133 || c = Char.ofNat 160

/-- Drop the leading run of Go whitespace characters. -/
def dropSpaceLeft : List Char → List Char
  | [] => []
  | c :: cs => if goSpace c then dropSpaceLeft cs else c :: cs

/-- Model of Go `strings.TrimSpace`: drop leading and trailing whitespace. -/
def TrimSpace (l : List Char) : List Char :=
  (dropSpaceLeft (dropSpaceLeft l).reverse).reverse

/-- Model of Go `strings.TrimSuffix l suf`: if `suf` is a suffix of `l`
(checked here on the reversed lists), remove it, otherwise return `l`
unchanged. -/
def TrimSuffix (l suf : List Char) : List Char :=
  if l.reverse.take suf.length = suf.reverse then
    l.take (l.length - suf.length)
  else l

/-- Model of Go `strings.Split s sep` for a one-character separator:
split around every occurrence of `sep`.  As in Go, the empty input
yields `[[]]` (one empty field), never the empty list of fields. -/
def splitOnChar (sep : Char) : List Char → List (List Char)
  | [] => [[]]
  | c :: cs =>
    if c = sep then [] :: splitOnChar sep cs
    else
      match splitOnChar sep cs with
      | [] => [[c]]
      | h :: t => (c :: h) :: t

/- ----------------------------------------------------------------- -/
/- resultOutput (shell.go lines 98-116)                              -/
/- ----------------------------------------------------------------- -/

/-- `resultOutput` wraps the accumulated bytes of one output stream
(shell.go line 99); the byte buffer is modelled as a list of
characters. -/
structure resultOutput where
  b : List Char
deriving Repr, DecidableEq

/-- shell.go lines 105-111: `Text` trims surrounding whitespace and,
when `stripNewLine` is set, additionally strips one trailing newline. -/
def resultOutput.Text (r : resultOutput) (stripNewLine : Bool) : List Char :=
  let val := TrimSpace r.b
  if !stripNewLine then val else TrimSuffix val [Char.ofNat 10]

/-- shell.go lines 114-116: `Lines` is `strings.Split(r.Text(false), "\n")`,
with each field rendered back as a string. -/
def resultOutput.Lines (r : resultOutput) : List String :=
  (splitOnChar (Char.ofNat 10) (r.Text false)).map (fun l => String.mk l)

/- ----------------------------------------------------------------- -/
/- DirDepth (shell.go lines 332-361)                                 -/
/- ----------------------------------------------------------------- -/

/-- The two failure modes of `DirDepth`: the root is not a string prefix
of the path (shell.go line 345), or `os.Stat` failed (line 350). -/
inductive DepthErr
  | badRoot
  | statFailed
deriving Repr, DecidableEq

/-- shell.go lines 334-339: remove one trailing slash if present. -/
def stripOneTrailingSlash (l : List Char) : List Char :=
  match l.getLast? with
  | some c => if c = '/' then l.dropLast else l
  | none => l

/-- Model of Go `strings.Replace l old new 1`: replace the leftmost
occurrence of `old` in `l` by `new`; if `old` does not occur, return `l`
unchanged (an empty `old` matches at the start, as in Go). -/
def replaceFirst : List Char → List Char → List Char → List Char
  | [], old, new => if old.isEmpty then new else []
  | c :: cs, old, new =>
    if old.isPrefixOf (c :: cs) then new ++ (c :: cs).drop old.length
    else c :: replaceFirst cs old new

/-- Model of Go `strings.Trim l "/"`: drop leading and trailing runs of
slash characters. -/
def trimSlashes (l : List Char) : List Char :=
  ((l.dropWhile (fun c => c = '/')).reverse.dropWhile (fun c => c = '/')).reverse

/-- Model of Go `filepath.Dir` for absolute paths without dot segments:
drop the final path component and any slashes before it; a component
with no slash gives the current directory, and a path whose components
are exhausted gives the root. -/
def goDir (l : List Char) : List Char :=
  match l.reverse.dropWhile (fun c => c ≠ '/') with
  | [] => ['.']
  | r =>
    match r.dropWhile (fun c => c = '/') with
    | [] => ['/']
    | r2 => r2.reverse

/-- shell.go lines 332-361: `DirDepth root path` returns the number of
directory levels separating `path` from `root`.  The filesystem is
abstracted by `stat : path ↦ none` (stat error) `| some isDir`.  The
fileutils.go variant (lines 132-166) is identical except that it also
applies `filepath.Abs` to both arguments first. -/
def DirDepth (stat : List Char → Option Bool) (root path : List Char) :
    Except DepthErr Nat :=
  let root1 := stripOneTrailingSlash root
  let path1 := stripOneTrailingSlash path
  if root1 = path1 then Except.ok 0
  else if !root1.isPrefixOf path1 then Except.error DepthErr.badRoot
  else
    match stat path1 with
    | none => Except.error DepthErr.statFailed
    | some isDir =>
      let path2 := if isDir then path1 else goDir path1
      let path3 := replaceFirst path2 root1 []
      let path4 := trimSlashes path3
      Except.ok (splitOnChar '/' path4).length

/-- Evaluates to true exactly on the success constructor of `Except`. -/
def exceptIsOk (e : Except DepthErr Nat) : Bool :=
  match e with
  | Except.ok _ => true
  | Except.error _ => false

/- ----------------------------------------------------------------- -/
/- The Result record (shell.go lines 40-50)                          -/
/- ----------------------------------------------------------------- -/

/-- The `Result` record of shell.go lines 40-50.  The Go struct's output
buffers are append-only and not touched by the supervision state machine,
so they are omitted here; the buffered readiness channel `done`
(capacity 3, created at shell.go line 276) is modelled by the number of
tokens currently buffered (`donePending`) together with the total number
of tokens ever sent (`doneSent`).  All other fields are the Go fields
with their Go zero values as initial values; note that shell.go contains
no assignment to `ExitCode` anywhere. -/
structure Result where
  errors : List String
  Killed : Bool
  Cancelled : Bool
  TimedOut : Bool
  ExitCode : Int
  Duration : Int
  donePending : Nat
  doneSent : Nat
deriving Repr, DecidableEq

/-- The zero-valued `Result` built by `newCommand` (shell.go lines 273-277). -/
def initResult : Result :=
  { errors := [], Killed := false, Cancelled := false, TimedOut := false,
    ExitCode := 0, Duration := 0, donePending := 0, doneSent := 0 }

/-- shell.go lines 54-56: `IsError` is
`r.Error != nil && len(r.Error) > 0`, which in Go is equivalent to the
error list being non-empty (a nil slice has length zero). -/
def Result.IsError (r : Result) : Bool :=
  !r.errors.isEmpty

/- ----------------------------------------------------------------- -/
/- Trace model of command.runWithContext (shell.go lines 164-210)    -/
/- ----------------------------------------------------------------- -/

/-- One atomic effect on the `Result` performed by the supervision code:
appending an error (`Result.AddError`, line 59), setting one of the
completion flags (lines 191, 201, 203, 222), recording the duration
(line 186), sending on the readiness channel (`Result.SetReady`,
line 70), or receiving from it (line 194). -/
inductive Act
  | addError (e : String)
  | setCancelled
  | setTimedOut
  | setKilled
  | setDuration (d : Int)
  | setReady
  | recvReady
deriving Repr, DecidableEq

/-- The effect of one atomic action on the `Result` state.  `setReady`
buffers one more token on the `done` channel; `recvReady` consumes one
(the trace validity results below keep track of when a receive or a
send could actually proceed). -/
def applyAction (r : Result) (a : Act) : Result :=
  match a with
  | Act.addError e => { r with errors := r.errors ++ [e] }
  | Act.setCancelled => { r with Cancelled := true }
  | Act.setTimedOut => { r with TimedOut := true }
  | Act.setKilled => { r with Killed := true }
  | Act.setDuration d => { r with Duration := d }
  | Act.setReady =>
    { r with donePending := r.donePending + 1, doneSent := r.doneSent + 1 }
  | Act.recvReady => { r with donePending := r.donePending - 1 }

/-- The state reached after executing a trace of atomic actions from the
fresh `Result`. -/
def runTrace (t : List Act) : Result :=
  t.foldl applyAction initResult

/-- The error message of `fmt.Errorf("Cancelled")` (shell.go line 192). -/
def cancelledMsg : String := "Cancelled"

/-- The error message of Go `context.DeadlineExceeded`. -/
def deadlineMsg : String := "context deadline exceeded"

/-- The error message of Go `context.Canceled`. -/
def canceledMsg : String := "context canceled"

/-- The error message Go `Process.Kill` returns when the process has
already been reaped by `Wait` (os.ErrProcessDone). -/
def alreadyFinishedMsg : String := "os: process already finished"

/-- shell.go lines 221-230: `kill` sets the `Killed` flag and then calls
`Process.Kill`, appending the returned error, if any, to the result.
`killErr` is the value returned by the operating system. -/
def killSeq (killErr : Option String) : List Act :=
  Act.setKilled ::
    (match killErr with
     | some e => [Act.addError e]
     | none => [])

/-- Which of the concurrently awaited event sources wins the select of
shell.go lines 189-207: the readiness signal of the finished waiter
goroutine (line 194), the configured stop channel (line 190), the
context deadline (line 200), or an external context cancellation
(line 202). -/
inductive Winner
  | ready
  | stop
  | deadline
  | ctxCancel
deriving Repr, DecidableEq

/-- The body of the select branch that won (shell.go lines 189-207),
before the deferred `SetReady`: the ready branch only receives the
buffered token; the stop branch sets `Cancelled`, appends the
"Cancelled" error and kills; the deadline branch sets `TimedOut`,
appends the context error and kills; an external context cancellation
sets `Cancelled`, appends the context error and kills. -/
def branchSeq (w : Winner) (killErr : Option String) : List Act :=
  match w with
  | Winner.ready => [Act.recvReady]
  | Winner.stop =>
    [Act.setCancelled, Act.addError cancelledMsg] ++ killSeq killErr
  | Winner.deadline =>
    [Act.setTimedOut, Act.addError deadlineMsg] ++ killSeq killErr
  | Winner.ctxCancel =>
    [Act.setCancelled, Act.addError canceledMsg] ++ killSeq killErr

/-- The full sequence of atomic actions executed by the main routine of
`runWithContext`: the winning select branch followed by the deferred
`SetReady` of shell.go lines 165-167. -/
def mainSeq (w : Winner) (killErr : Option String) : List Act :=
  branchSeq w killErr ++ [Act.setReady]

/-- The sequence of atomic actions executed by the waiter goroutine of
shell.go lines 177-187.  If `Start` fails (`startErr`), `start()` appends
the error (line 141), the goroutine body appends it once more (line 182)
and returns, firing the deferred `SetReady` (line 178).  Otherwise
`exec()` appends the error returned by `Wait`, if any (line 152) —
Go's `Wait` returns a non-nil ExitError exactly when the process exits
with a non-zero status — then the goroutine records the duration
(line 186) and the deferred `SetReady` fires. -/
def waiterSeq (startErr waitErr : Option String) (d : Int) : List Act :=
  match startErr with
  | some e => [Act.addError e, Act.addError e, Act.setReady]
  | none =>
    (match waitErr with
     | some e => [Act.addError e]
     | none => []) ++ [Act.setDuration d, Act.setReady]

/-- An interleaving of two action sequences, driven by a schedule:
`true` takes the next main-routine action, `false` the next waiter
action.  `none` when the schedule does not exactly consume both
sequences. -/
def interleave : List Bool → List Act → List Act → Option (List Act)
  | [], [], [] => some []
  | [], _ :: _, _ => none
  | [], [], _ :: _ => none
  | true :: _, [], _ => none
  | true :: s, m :: ms, gs => Option.map (fun t => m :: t) (interleave s ms gs)
  | false :: _, _, [] => none
  | false :: s, ms, g :: gs => Option.map (fun t => g :: t) (interleave s ms gs)

/-- Number of occurrences of an action in a trace. -/
def countAct (a : Act) : List Act → Nat
  | [] => 0
  | b :: l => (if b = a then 1 else 0) + countAct a l

/-- The error payload of an action, if it has one. -/
def errOf (a : Act) : Option String :=
  match a with
  | Act.addError e => some e
  | _ => none

/- ----------------------------------------------------------------- -/
/- Panic model of kill through a nil process handle                  -/
/- ----------------------------------------------------------------- -/

/-- The Go runtime message for dereferencing a nil pointer. -/
def nilPanicMsg : String := "runtime error: invalid memory address or nil pointer dereference"

/-- shell.go lines 221-230 again, this time keeping track of whether the
process was ever started: `exec.Cmd.Process` is nil until `Start`
succeeds, so `sc.c.Process.Kill()` panics when the process never
started.  The `Killed` flag is set before the dereference (line 222). -/
def killModel (started : Bool) (killErr : Option String) (r : Result) :
    Except String Result :=
  let r1 := applyAction r Act.setKilled
  if started then
    match killErr with
    | some e => Except.ok (applyAction r1 (Act.addError e))
    | none => Except.ok r1
  else Except.error nilPanicMsg

/-- The winning select branch of shell.go lines 189-207 as a fallible
computation: any branch that kills a never-started process propagates
the nil-pointer panic, uncaught (there is no recover anywhere in
shell.go). -/
def selectBranch (w : Winner) (started : Bool) (killErr : Option String)
    (r : Result) : Except String Result :=
  match w with
  | Winner.ready => Except.ok (applyAction r Act.recvReady)
  | Winner.stop =>
    killModel started killErr
      (applyAction (applyAction r Act.setCancelled) (Act.addError cancelledMsg))
  | Winner.deadline =>
    killModel started killErr
      (applyAction (applyAction r Act.setTimedOut) (Act.addError deadlineMsg))
  | Winner.ctxCancel =>
    killModel started killErr
      (applyAction (applyAction r Act.setCancelled) (Act.addError canceledMsg))

/-- The stat function of a filesystem in which the directory /a/bc
exists and nothing else does. -/
def statAB (l : List Char) : Option Bool :=
  if l = "/a/bc".data then some true else none

/-- A concrete admissible execution of the cancellation path: the stop
channel fires, the main routine runs its whole branch (including the
deferred `SetReady`), and only then does the killed process's `Wait`
return in the waiter goroutine, which appends the kill error and writes
the duration — after readiness was already signalled.  This ordering is
realizable because the waiter is blocked in `Wait` until the kill takes
effect, and nothing synchronizes its remaining writes with the main
routine's deferred `SetReady`. -/
def cexTraceCancel : List Act :=
  [Act.setCancelled, Act.addError "Cancelled", Act.setKilled, Act.setReady,
   Act.addError "signal: killed", Act.setDuration 5, Act.setReady]

/-- A concrete admissible execution of the timeout path: the process
exits naturally and the waiter goroutine completes entirely (recording
the duration and signalling readiness); the deadline fires at the same
moment, the select of shell.go line 189 picks the `ctx.Done()` case
(Go's select chooses pseudo-randomly among ready cases), and the main
routine sets `TimedOut` after readiness was already signalled. -/
def cexTraceDeadline : List Act :=
  [Act.setDuration 5, Act.setReady, Act.setTimedOut, Act.addError deadlineMsg,
   Act.setKilled, Act.setReady]

/- ----------------------------------------------------------------- -/
/- Helper lemmas about traces and interleavings                      -/
/- ----------------------------------------------------------------- -/

theorem foldl_exitCode (l : List Act) (r : Result) :
    (l.foldl applyAction r).ExitCode = r.ExitCode := by
  induction l generalizing r with
  | nil => rfl
  | cons a l ih => rw [List.foldl_cons, ih]; cases a <;> rfl

theorem foldl_errors (l : List Act) (r : Result) :
    (l.foldl applyAction r).errors = r.errors ++ l.filterMap errOf := by
  induction l generalizing r with
  | nil => simp
  | cons a l ih =>
    rw [List.foldl_cons, ih]
    cases a <;> simp [applyAction, errOf, List.filterMap_cons]

theorem foldl_cancelled_mono (l : List Act) (r : Result)
    (h : r.Cancelled = true) : (l.foldl applyAction r).Cancelled = true := by
  induction l generalizing r with
  | nil => exact h
  | cons a l ih =>
    rw [List.foldl_cons]
    apply ih
    cases a <;> simp [applyAction, h]

theorem foldl_cancelled_of_mem (l : List Act) (r : Result)
    (h : Act.setCancelled ∈ l) : (l.foldl applyAction r).Cancelled = true := by
  induction l generalizing r with
  | nil => cases h
  | cons a l ih =>
    rw [List.foldl_cons]
    rcases List.mem_cons.mp h with h1 | h2
    · subst h1
      exact foldl_cancelled_mono l _ rfl
    · exact ih _ h2

theorem foldl_cancelled_of_not_mem (l : List Act) (r : Result)
    (h : Act.setCancelled ∉ l) : (l.foldl applyAction r).Cancelled = r.Cancelled := by
  induction l generalizing r with
  | nil => rfl
  | cons a l ih =>
    rw [List.foldl_cons]
    rw [ih _ (fun hmem => h (List.mem_cons_of_mem a hmem))]
    cases a <;> first
      | rfl
      | exact absurd (List.mem_cons_self _ _) h

theorem foldl_timedOut_of_not_mem (l : List Act) (r : Result)
    (h : Act.setTimedOut ∉ l) : (l.foldl applyAction r).TimedOut = r.TimedOut := by
  induction l generalizing r with
  | nil => rfl
  | cons a l ih =>
    rw [List.foldl_cons]
    rw [ih _ (fun hmem => h (List.mem_cons_of_mem a hmem))]
    cases a <;> first
      | rfl
      | exact absurd (List.mem_cons_self _ _) h

theorem foldl_killed_mono (l : List Act) (r : Result)
    (h : r.Killed = true) : (l.foldl applyAction r).Killed = true := by
  induction l generalizing r with
  | nil => exact h
  | cons a l ih =>
    rw [List.foldl_cons]
    apply ih
    cases a <;> simp [applyAction, h]

theorem foldl_killed_of_mem (l : List Act) (r : Result)
    (h : Act.setKilled ∈ l) : (l.foldl applyAction r).Killed = true := by
  induction l generalizing r with
  | nil => cases h
  | cons a l ih =>
    rw [List.foldl_cons]
    rcases List.mem_cons.mp h with h1 | h2
    · subst h1
      exact foldl_killed_mono l _ rfl
    · exact ih _ h2

theorem foldl_doneSent (l : List Act) (r : Result) :
    (l.foldl applyAction r).doneSent = r.doneSent + countAct Act.setReady l := by
  induction l generalizing r with
  | nil => rfl
  | cons a l ih =>
    rw [List.foldl_cons, ih]
    cases a <;> (simp [applyAction, countAct]; try omega)

theorem foldl_donePending_le (l : List Act) (r : Result) :
    (l.foldl applyAction r).donePending ≤ r.donePending + countAct Act.setReady l := by
  induction l generalizing r with
  | nil => simp
  | cons a l ih =>
    rw [List.foldl_cons]
    have := ih (applyAction r a)
    cases a <;> simp [applyAction, countAct] at this ⊢ <;> omega

theorem foldl_donePending_ge (l : List Act) (r : Result) :
    r.donePending + countAct Act.setReady l ≤
      (l.foldl applyAction r).donePending + countAct Act.recvReady l := by
  induction l generalizing r with
  | nil => simp [countAct]
  | cons a l ih =>
    rw [List.foldl_cons]
    have := ih (applyAction r a)
    cases a <;> simp [applyAction, countAct] at this ⊢ <;> omega

theorem countAct_take_le (a : Act) (l : List Act) (n : Nat) :
    countAct a (l.take n) ≤ countAct a l := by
  induction l generalizing n with
  | nil => simp [countAct]
  | cons b l ih =>
    cases n with
    | zero => simp [countAct]
    | succ n =>
      simp only [List.take_succ_cons, countAct]
      exact Nat.add_le_add_left (ih n) _

theorem interleave_mem {s : List Bool} {ms gs t : List Act}
    (h : interleave s ms gs = some t) : ∀ a ∈ t, a ∈ ms ∨ a ∈ gs := by
  induction s generalizing ms gs t with
  | nil =>
    cases ms with
    | nil =>
      cases gs with
      | nil =>
        simp only [interleave, Option.some.injEq] at h
        subst h
        intro a ha
        cases ha
      | cons g gs => exact absurd h (by simp [interleave])
    | cons m ms => exact absurd h (by simp [interleave])
  | cons b s ih =>
    cases b with
    | true =>
      cases ms with
      | nil => exact absurd h (by simp [interleave])
      | cons m ms =>
        simp only [interleave, Option.map_eq_some'] at h
        obtain ⟨t1, ht1, rfl⟩ := h
        intro a ha
        rcases List.mem_cons.mp ha with h1 | h2
        · exact Or.inl (h1 ▸ List.mem_cons_self _ _)
        · rcases ih ht1 a h2 with h3 | h4
          · exact Or.inl (List.mem_cons_of_mem _ h3)
          · exact Or.inr h4
    | false =>
      cases gs with
      | nil => exact absurd h (by simp [interleave])
      | cons g gs =>
        simp only [interleave, Option.map_eq_some'] at h
        obtain ⟨t1, ht1, rfl⟩ := h
        intro a ha
        rcases List.mem_cons.mp ha with h1 | h2
        · exact Or.inr (h1 ▸ List.mem_cons_self _ _)
        · rcases ih ht1 a h2 with h3 | h4
          · exact Or.inl h3
          · exact Or.inr (List.mem_cons_of_mem _ h4)

theorem interleave_mem_left {s : List Bool} {ms gs t : List Act}
    (h : interleave s ms gs = some t) : ∀ a ∈ ms, a ∈ t := by
  induction s generalizing ms gs t with
  | nil =>
    cases ms with
    | nil => intro a ha; cases ha
    | cons m ms => exact absurd h (by simp [interleave])
  | cons b s ih =>
    cases b with
    | true =>
      cases ms with
      | nil => intro a ha; cases ha
      | cons m ms =>
        simp only [interleave, Option.map_eq_some'] at h
        obtain ⟨t1, ht1, rfl⟩ := h
        intro a ha
        rcases List.mem_cons.mp ha with h1 | h2
        · exact h1 ▸ List.mem_cons_self _ _
        · exact List.mem_cons_of_mem _ (ih ht1 a h2)
    | false =>
      cases gs with
      | nil => exact absurd h (by simp [interleave])
      | cons g gs =>
        simp only [interleave, Option.map_eq_some'] at h
        obtain ⟨t1, ht1, rfl⟩ := h
        intro a ha
        exact List.mem_cons_of_mem _ (ih ht1 a ha)

theorem interleave_countAct {s : List Bool} {ms gs t : List Act}
    (h : interleave s ms gs = some t) (a : Act) :
    countAct a t = countAct a ms + countAct a gs := by
  induction s generalizing ms gs t with
  | nil =>
    cases ms with
    | nil =>
      cases gs with
      | nil =>
        simp only [interleave, Option.some.injEq] at h
        subst h
        rfl
      | cons g gs => exact absurd h (by simp [interleave])
    | cons m ms => exact absurd h (by simp [interleave])
  | cons b s ih =>
    cases b with
    | true =>
      cases ms with
      | nil => exact absurd h (by simp [interleave])
      | cons m ms =>
        simp only [interleave, Option.map_eq_some'] at h
        obtain ⟨t1, ht1, rfl⟩ := h
        simp only [countAct]
        rw [ih ht1]
        omega
    | false =>
      cases gs with
      | nil => exact absurd h (by simp [interleave])
      | cons g gs =>
        simp only [interleave, Option.map_eq_some'] at h
        obtain ⟨t1, ht1, rfl⟩ := h
        simp only [countAct]
        rw [ih ht1]
        omega

theorem interleave_filterMap_errOf {s : List Bool} {ms gs t : List Act}
    (h : interleave s ms gs = some t) (hm : ms.filterMap errOf = []) :
    t.filterMap errOf = gs.filterMap errOf := by
  induction s generalizing ms gs t with
  | nil =>
    cases ms with
    | nil =>
      cases gs with
      | nil =>
        simp only [interleave, Option.some.injEq] at h
        subst h
        rfl
      | cons g gs => exact absurd h (by simp [interleave])
    | cons m ms => exact absurd h (by simp [interleave])
  | cons b s ih =>
    cases b with
    | true =>
      cases ms with
      | nil => exact absurd h (by simp [interleave])
      | cons m ms =>
        simp only [interleave, Option.map_eq_some'] at h
        obtain ⟨t1, ht1, rfl⟩ := h
        rw [List.filterMap_cons] at hm ⊢
        cases he : errOf m with
        | none =>
          rw [he] at hm
          exact ih ht1 hm
        | some e =>
          rw [he] at hm
          cases hm
    | false =>
      cases gs with
      | nil => exact absurd h (by simp [interleave])
      | cons g gs =>
        simp only [interleave, Option.map_eq_some'] at h
        obtain ⟨t1, ht1, rfl⟩ := h
        rw [List.filterMap_cons, List.filterMap_cons]
        cases he : errOf g with
        | none => exact ih ht1 hm
        | some e => rw [ih ht1 hm]

theorem interleave_mem_right {s : List Bool} {ms gs t : List Act}
    (h : interleave s ms gs = some t) : ∀ a ∈ gs, a ∈ t := by
  induction s generalizing ms gs t with
  | nil =>
    cases ms with
    | nil =>
      cases gs with
      | nil => intro a ha; cases ha
      | cons g gs => exact absurd h (by simp [interleave])
    | cons m ms => exact absurd h (by simp [interleave])
  | cons b s ih =>
    cases b with
    | true =>
      cases ms with
      | nil => exact absurd h (by simp [interleave])
      | cons m ms =>
        simp only [interleave, Option.map_eq_some'] at h
        obtain ⟨t1, ht1, rfl⟩ := h
        intro a ha
        exact List.mem_cons_of_mem _ (ih ht1 a ha)
    | false =>
      cases gs with
      | nil => intro a ha; cases ha
      | cons g gs =>
        simp only [interleave, Option.map_eq_some'] at h
        obtain ⟨t1, ht1, rfl⟩ := h
        intro a ha
        rcases List.mem_cons.mp ha with h1 | h2
        · exact h1 ▸ List.mem_cons_self _ _
        · exact List.mem_cons_of_mem _ (ih ht1 a h2)

theorem dropSpaceLeft_head_not_space (l : List Char) :
    ∀ c cs, dropSpaceLeft l = c :: cs → goSpace c = false := by
  induction l with
  | nil => intro c cs h; cases h
  | cons b l ih =>
    intro c cs h
    by_cases hb : goSpace b
    · rw [dropSpaceLeft, if_pos hb] at h
      exact ih c cs h
    · rw [dropSpaceLeft, if_neg hb] at h
      cases h
      simpa using hb

theorem trimSpace_no_newline_at_end (l : List Char) :
    ¬((TrimSpace l).reverse.take 1 = [Char.ofNat 10]) := by
  unfold TrimSpace
  rw [List.reverse_reverse]
  cases h : dropSpaceLeft (dropSpaceLeft l).reverse with
  | nil => simp
  | cons c cs =>
    have hc := dropSpaceLeft_head_not_space _ c cs h
    intro heq
    rw [List.take_succ_cons, List.take_zero] at heq
    have : c = Char.ofNat 10 := by
      injection heq
    rw [this] at hc
    exact absurd hc (by decide)

theorem trimSuffix_trimSpace_newline (l : List Char) :
    TrimSuffix (TrimSpace l) [Char.ofNat 10] = TrimSpace l := by
  unfold TrimSuffix
  rw [if_neg]
  intro h
  exact trimSpace_no_newline_at_end l (by simpa using h)

/- ----------------------------------------------------------------- -/
/- Claims                                                            -/
/- ----------------------------------------------------------------- -/

/-- C1: in every execution where the process exits on its own before
any cancellation or timeout (the ready branch of the select wins), the
returned Result has neither the Cancelled nor the TimedOut flag set —
but its ExitCode is always 0, whatever the actual exit status of the
process was (here `waitErr` carries the ExitError that Go's `Wait`
returns on a non-zero exit status), because shell.go never assigns
`Result.ExitCode`.  This contradicts the claim (and the repository's
own TestExitCodes, which expects 127 and 1): the code is at fault, not
the claim. -/
theorem c1_normal_exit_clears_flags_but_exitCode_stays_zero
    (waitErr : Option String) (d : Int) (s : List Bool) (t : List Act)
    (h : interleave s (mainSeq Winner.ready none) (waiterSeq none waitErr d) = some t) :
    (runTrace t).ExitCode = 0 ∧ (runTrace t).Cancelled = false ∧
    (runTrace t).TimedOut = false := by
  have hmem := interleave_mem h
  have hnc : Act.setCancelled ∉ t := by
    intro hc
    rcases hmem _ hc with h1 | h2
    · simp [mainSeq, branchSeq] at h1
    · cases waitErr <;> simp [waiterSeq] at h2
  have hnt : Act.setTimedOut ∉ t := by
    intro hc
    rcases hmem _ hc with h1 | h2
    · simp [mainSeq, branchSeq] at h1
    · cases waitErr <;> simp [waiterSeq] at h2
  refine ⟨foldl_exitCode t initResult, ?_, ?_⟩
  · exact foldl_cancelled_of_not_mem t initResult hnc
  · exact foldl_timedOut_of_not_mem t initResult hnt

/-- Witness for C1: the command `exit 1` — the process exits with
status 1, Go's `Wait` reports the ExitError "exit status 1", and the
Result still carries ExitCode 0 with no completion flag. -/
theorem c1_witness :
    (runTrace [Act.addError "exit status 1", Act.setDuration 0, Act.setReady,
      Act.recvReady, Act.setReady]).ExitCode = 0 ∧
    (runTrace [Act.addError "exit status 1", Act.setDuration 0, Act.setReady,
      Act.recvReady, Act.setReady]).Cancelled = false ∧
    (runTrace [Act.addError "exit status 1", Act.setDuration 0, Act.setReady,
      Act.recvReady, Act.setReady]).TimedOut = false :=
  c1_normal_exit_clears_flags_but_exitCode_stays_zero (some "exit status 1") 0
    [false, false, false, true, true] _ rfl

/-- C2: `IsError` is true exactly when the error list is non-empty —
but for a command that runs to completion with a non-zero exit status
(here exit code 127 from the shell for an unknown executable), Go's
`Wait` returns an ExitError, `exec` appends it to the error list
(shell.go line 152), and `IsError` is therefore TRUE, contradicting the
claim and the repository's own TestErrorValues comment.  The code is
at fault, not the claim. -/
theorem c2_isError_iff_nonempty_but_true_on_exit_127
    (r : Result) (d : Int) (s : List Bool) (t : List Act)
    (h : interleave s (mainSeq Winner.ready none)
      (waiterSeq none (some "exit status 127") d) = some t) :
    (r.IsError = true ↔ r.errors ≠ []) ∧ (runTrace t).IsError = true := by
  constructor
  · cases hr : r.errors <;> simp [Result.IsError, hr]
  · have hmem : Act.addError "exit status 127" ∈ t := by
      apply interleave_mem_right h
      simp [waiterSeq]
    have hin : "exit status 127" ∈ (runTrace t).errors := by
      rw [runTrace, foldl_errors]
      exact List.mem_append_right _ (List.mem_filterMap.mpr ⟨_, hmem, rfl⟩)
    cases herr : (runTrace t).errors with
    | nil => rw [herr] at hin; cases hin
    | cons x xs => simp [Result.IsError, herr]

/-- Witness for C2: the command `lssss >& /dev/null` — bash exits with
status 127, Wait reports "exit status 127", and IsError is true. -/
theorem c2_witness :
    (initResult.IsError = true ↔ initResult.errors ≠ []) ∧
    (runTrace [Act.addError "exit status 127", Act.setDuration 0, Act.setReady,
      Act.recvReady, Act.setReady]).IsError = true :=
  c2_isError_iff_nonempty_but_true_on_exit_127 initResult 0
    [false, false, false, true, true] _ rfl

/-- C3 counterexample: two concrete admissible executions in which a
Result field other than the output buffers changes after readiness has
been signalled.  In `cexTraceCancel` (cancellation path) the waiter
goroutine writes the Duration and appends an error after the main
routine's deferred SetReady; in `cexTraceDeadline` (timeout path racing
a simultaneous natural exit) the main routine sets TimedOut after the
waiter already signalled readiness.  In both, the prefix before the
later writes already has doneSent = 1. -/
theorem c3_counterexample :
    interleave [true, true, true, true, false, false, false]
      (mainSeq Winner.stop none) (waiterSeq none (some "signal: killed") 5) =
        some cexTraceCancel ∧
    (runTrace (cexTraceCancel.take 4)).doneSent = 1 ∧
    (runTrace (cexTraceCancel.take 4)).Duration ≠ (runTrace cexTraceCancel).Duration ∧
    (runTrace (cexTraceCancel.take 4)).errors ≠ (runTrace cexTraceCancel).errors ∧
    interleave [false, false, true, true, true, true]
      (mainSeq Winner.deadline none) (waiterSeq none none 5) = some cexTraceDeadline ∧
    (runTrace (cexTraceDeadline.take 2)).doneSent = 1 ∧
    (runTrace (cexTraceDeadline.take 2)).TimedOut = false ∧
    (runTrace cexTraceDeadline).TimedOut = true := by
  refine ⟨rfl, rfl, by decide, by decide, rfl, rfl, rfl, rfl⟩

/-- C3 (amended): after readiness is signalled, the only Result field
(besides the output buffers) that is guaranteed never to change is the
exit code — and only because shell.go never writes it at all, at any
point of any trace; the Duration, the error list, and the completion
flags may all still be written after the first readiness signal, as the
counterexample shows. -/
theorem c3_amended_only_exitCode_frozen (t : List Act) (n : Nat) :
    (runTrace (t.take n)).ExitCode = (runTrace t).ExitCode := by
  rw [runTrace, runTrace, foldl_exitCode, foldl_exitCode]

/-- C4: whenever the configured stop channel fires before natural exit
and before any deadline (the stop branch of the select wins — whether
or not a timeout was also configured, the select shape is the same),
every admissible interleaving yields a Result with the Cancelled flag
set, the explicit "Cancelled" error appended, and the process killed. -/
theorem c4_cancel_sets_flag_error_and_kills
    (killErr waitErr : Option String) (d : Int) (s : List Bool) (t : List Act)
    (h : interleave s (mainSeq Winner.stop killErr) (waiterSeq none waitErr d) = some t) :
    (runTrace t).Cancelled = true ∧ cancelledMsg ∈ (runTrace t).errors ∧
    (runTrace t).Killed = true := by
  have hc : Act.setCancelled ∈ t := by
    apply interleave_mem_left h
    cases killErr <;> simp [mainSeq, branchSeq, killSeq]
  have he : Act.addError cancelledMsg ∈ t := by
    apply interleave_mem_left h
    cases killErr <;> simp [mainSeq, branchSeq, killSeq]
  have hk : Act.setKilled ∈ t := by
    apply interleave_mem_left h
    cases killErr <;> simp [mainSeq, branchSeq, killSeq]
  refine ⟨foldl_cancelled_of_mem t initResult hc, ?_, foldl_killed_of_mem t initResult hk⟩
  rw [runTrace, foldl_errors]
  exact List.mem_append_right _ (List.mem_filterMap.mpr ⟨_, he, rfl⟩)

/-- Witness for C4: cancelling `sleep 1` after 200ms; the kill makes
`Wait` return "signal: killed" in the waiter goroutine. -/
theorem c4_witness :
    (runTrace [Act.setCancelled, Act.addError "Cancelled", Act.setKilled,
      Act.setReady, Act.addError "signal: killed", Act.setDuration 0,
      Act.setReady]).Cancelled = true ∧
    cancelledMsg ∈ (runTrace [Act.setCancelled, Act.addError "Cancelled",
      Act.setKilled, Act.setReady, Act.addError "signal: killed",
      Act.setDuration 0, Act.setReady]).errors ∧
    (runTrace [Act.setCancelled, Act.addError "Cancelled", Act.setKilled,
      Act.setReady, Act.addError "signal: killed", Act.setDuration 0,
      Act.setReady]).Killed = true :=
  c4_cancel_sets_flag_error_and_kills none (some "signal: killed") 0
    [true, true, true, true, false, false, false] _ rfl

/-- C5 counterexample: shell.go has no recover and no Crashed state.
When the cancellation (or timeout) branch runs for a command whose
process never started — e.g. the stop channel is already closed when
`RunWithContext` is called on a nonexistent executable — `kill`
dereferences the nil `exec.Cmd.Process` (shell.go line 224) and the
resulting panic propagates to the caller uncaught, instead of being
converted into an error on a ready Result. -/
theorem c5_counterexample :
    selectBranch Winner.stop false none initResult = Except.error nilPanicMsg := rfl

/-- C5 (amended): a failure reported while starting the process is
captured in the Result's error list (appended twice, by `start` at
line 141 and by the goroutine body at line 182), the Result is still
marked ready, and the completion flags stay clear — there is no
distinct Crashed state, and a genuine panic during supervision (killing
a never-started process) is not caught, as the counterexample shows. -/
theorem c5_amended_start_failure_captured_and_ready
    (e : String) (waitErr : Option String) (d : Int) (s : List Bool) (t : List Act)
    (h : interleave s (mainSeq Winner.ready none) (waiterSeq (some e) waitErr d) = some t) :
    (runTrace t).errors = [e, e] ∧ (runTrace t).Cancelled = false ∧
    (runTrace t).TimedOut = false ∧ (runTrace t).doneSent = 2 := by
  have hmem := interleave_mem h
  refine ⟨?_, ?_, ?_, ?_⟩
  · rw [runTrace, foldl_errors, interleave_filterMap_errOf h rfl]
    rfl
  · apply foldl_cancelled_of_not_mem
    intro hc
    rcases hmem _ hc with h1 | h2
    · simp [mainSeq, branchSeq] at h1
    · simp [waiterSeq] at h2
  · apply foldl_timedOut_of_not_mem
    intro hc
    rcases hmem _ hc with h1 | h2
    · simp [mainSeq, branchSeq] at h1
    · simp [waiterSeq] at h2
  · rw [runTrace, foldl_doneSent, interleave_countAct h]
    rfl

/-- Witness for C5 (amended): a command whose executable cannot be
started; the start error is recorded twice and readiness is signalled. -/
theorem c5_witness :
    (runTrace [Act.addError "exec: no such file", Act.addError "exec: no such file",
      Act.setReady, Act.recvReady, Act.setReady]).errors =
        ["exec: no such file", "exec: no such file"] ∧
    (runTrace [Act.addError "exec: no such file", Act.addError "exec: no such file",
      Act.setReady, Act.recvReady, Act.setReady]).Cancelled = false ∧
    (runTrace [Act.addError "exec: no such file", Act.addError "exec: no such file",
      Act.setReady, Act.recvReady, Act.setReady]).TimedOut = false ∧
    (runTrace [Act.addError "exec: no such file", Act.addError "exec: no such file",
      Act.setReady, Act.recvReady, Act.setReady]).doneSent = 2 :=
  c5_amended_start_failure_captured_and_ready "exec: no such file" none 0
    [false, false, false, true, true] _ rfl

/-- C6 counterexample: `SetReady` sends on a buffered channel rather
than performing an idempotent close, so the second invocation is not a
no-op (a second token is buffered), and readiness is consumed by each
receive: after the two SetReady calls of a normal run, the select's own
receive plus one caller query drain the channel, and a further caller
query finds no token — it blocks instead of observing ready. -/
theorem c6_counterexample :
    (runTrace [Act.setReady, Act.setReady]).donePending = 2 ∧
    (runTrace [Act.setReady, Act.recvReady, Act.setReady, Act.recvReady]).doneSent = 2 ∧
    (runTrace [Act.setReady, Act.recvReady, Act.setReady, Act.recvReady]).donePending = 0 :=
  ⟨rfl, rfl, rfl⟩

/-- C6 (amended): in every execution of `runWithContext`, exactly two
SetReady sends occur (the waiter goroutine's deferred one and the main
routine's deferred one); since the channel buffer has capacity 3 and at
most two tokens are ever outstanding, no SetReady invocation blocks or
panics; and at least one token remains when the call returns, so the
caller's first readiness query observes ready — but each send buffers a
further token (the second is not a no-op) and each query consumes one,
as the counterexample shows. -/
theorem c6_amended_two_sends_never_block_one_token_left
    (w : Winner) (killErr startErr waitErr : Option String) (d : Int)
    (s : List Bool) (t : List Act) (n : Nat)
    (h : interleave s (mainSeq w killErr) (waiterSeq startErr waitErr d) = some t) :
    countAct Act.setReady t = 2 ∧ (runTrace (t.take n)).donePending ≤ 2 ∧
    1 ≤ (runTrace t).donePending := by
  have hcount : countAct Act.setReady t = 2 := by
    rw [interleave_countAct h]
    cases w <;> cases killErr <;> cases startErr <;> cases waitErr <;> rfl
  have hrecv : countAct Act.recvReady t ≤ 1 := by
    rw [interleave_countAct h]
    have h1 : countAct Act.recvReady (mainSeq w killErr) ≤ 1 := by
      cases w <;> cases killErr <;> simp [mainSeq, branchSeq, killSeq, countAct]
    have h2 : countAct Act.recvReady (waiterSeq startErr waitErr d) = 0 := by
      cases startErr <;> cases waitErr <;> rfl
    omega
  refine ⟨hcount, ?_, ?_⟩
  · have h1 := foldl_donePending_le (t.take n) initResult
    have h2 := countAct_take_le Act.setReady t n
    have h0 : initResult.donePending = 0 := rfl
    rw [runTrace]
    omega
  · have h3 := foldl_donePending_ge t initResult
    have h0 : initResult.donePending = 0 := rfl
    rw [runTrace]
    omega

/-- Witness for C6 (amended): a normal run (process exit wins). -/
theorem c6_witness :
    countAct Act.setReady [Act.setDuration 0, Act.setReady, Act.recvReady,
      Act.setReady] = 2 ∧
    (runTrace ([Act.setDuration 0, Act.setReady, Act.recvReady,
      Act.setReady].take 2)).donePending ≤ 2 ∧
    1 ≤ (runTrace [Act.setDuration 0, Act.setReady, Act.recvReady,
      Act.setReady]).donePending :=
  c6_amended_two_sends_never_block_one_token_left Winner.ready none none none 0
    [false, false, true, true] _ 2 rfl

/-- C7 counterexample: `Lines` on an empty buffer returns a one-element
sequence containing the empty string, not an empty sequence, because
Go's `strings.Split("", sep)` yields one empty field. -/
theorem c7_counterexample :
    resultOutput.Lines { b := [] } = [""] ∧ resultOutput.Lines { b := [] } ≠ [] := by
  refine ⟨by decide, by decide⟩

/-- C7 (amended): `Lines` on an empty buffer returns the one-element
sequence containing the empty string; on a buffer holding "hello",
with or without a trailing newline (Text trims surrounding whitespace
before splitting), it returns exactly ["hello"]. -/
theorem c7_amended_lines_empty_and_hello :
    resultOutput.Lines { b := [] } = [""] ∧
    resultOutput.Lines { b := "hello".data } = ["hello"] ∧
    resultOutput.Lines { b := "hello\n".data } = ["hello"] := by
  refine ⟨by decide, by decide, by decide⟩

/-- C8 counterexample: when the process has already exited and been
reaped at the moment kill is attempted, Go's `Process.Kill` returns
os.ErrProcessDone ("os: process already finished"); shell.go's `kill`
appends that error to the Result (line 225) and has already set the
Killed flag (line 222) — the kill is not a no-op and the
"already finished" error is surfaced to the caller. -/
theorem c8_counterexample :
    (runTrace (killSeq (some alreadyFinishedMsg))).Killed = true ∧
    (runTrace (killSeq (some alreadyFinishedMsg))).errors = [alreadyFinishedMsg] :=
  ⟨rfl, rfl⟩

/-- C8 (amended): `kill` always sets the Killed flag, and appends
exactly the error that `Process.Kill` returned — including the
"process already finished" error when the process was already reaped;
only a nil kill error leaves the error list untouched. -/
theorem c8_amended_kill_sets_flag_and_surfaces_error (killErr : Option String) :
    (runTrace (killSeq killErr)).Killed = true ∧
    (runTrace (killSeq killErr)).errors = killErr.toList := by
  cases killErr <;> exact ⟨rfl, rfl⟩

/-- C9: `Text true` and `Text false` always coincide: `Text` first
trims all surrounding whitespace, after which the trimmed value cannot
end in a newline, so the subsequent trailing-newline strip is a no-op. -/
theorem c9_text_strip_newline_noop (r : resultOutput) :
    r.Text true = r.Text false := by
  show TrimSuffix (TrimSpace r.b) [Char.ofNat 10] = TrimSpace r.b
  exact trimSuffix_trimSpace_newline r.b

/-- C10: `DirDepth` decides "path is under root" by plain string
prefix, not by path components: whenever (after trailing-slash
removal) the root is a string prefix of the path, distinct from it,
and the path stats as an existing directory, `DirDepth` does not
return the not-a-prefix error and returns a computed depth — even when
the root is not an ancestor directory of the path, as in root "/a/b"
and path "/a/bc". -/
theorem c10_dirDepth_plain_string_prefix (stat : List Char → Option Bool)
    (root path : List Char)
    (h1 : stripOneTrailingSlash root ≠ stripOneTrailingSlash path)
    (h2 : (stripOneTrailingSlash root).isPrefixOf (stripOneTrailingSlash path) = true)
    (h3 : stat (stripOneTrailingSlash path) = some true) :
    exceptIsOk (DirDepth stat root path) = true ∧
    DirDepth stat root path ≠ Except.error DepthErr.badRoot := by
  unfold DirDepth
  rw [if_neg h1, h2]
  simp only [Bool.not_true, Bool.false_eq_true, if_false]
  rw [h3]
  exact ⟨rfl, fun hcon => Except.noConfusion hcon⟩

/-- Witness for C10: root "/a/b" and path "/a/bc" — the root is a
string prefix of the path but not an ancestor directory of it, yet
DirDepth succeeds (with depth 1). -/
theorem c10_witness :
    exceptIsOk (DirDepth statAB "/a/b".data "/a/bc".data) = true ∧
    DirDepth statAB "/a/b".data "/a/bc".data ≠ Except.error DepthErr.badRoot :=
  c10_dirDepth_plain_string_prefix statAB "/a/b".data "/a/bc".data
    (by decide) (by decide) (by decide)
